import Mathlib

/-!
Shallow embedding of `board-game-geom` (src/lib.rs), a geometric foundation
library for rectangular lattice puzzles, together with proofs of its
specified properties.

Modelling conventions:
* Rust `i32` values are modelled as `Int`.  The spec (§4.1) declares `i32`
  arithmetic overflow out of scope (callers keep coordinates well below the
  square root of `i32::MAX`), so arithmetic is modelled exactly.
* The Rust cast `as usize` on an `i32` is total and well defined even for
  negative inputs (two's complement reinterpretation); it is modelled
  exactly by `usizeOfInt` for every value an `i32` can hold.
* The Rust cast `usize as i32` appears only on `id - 1` in
  `cellid_to_point`; for values within the overflow-free scope (< 2^31) it
  is the identity and is modelled as the `Nat → Int` coercion.
* Rust iterators are modelled by their `next` step functions acting on the
  iterator-state structs translated from the source, run with explicit
  fuel; a `Vec` indexing operation that may panic is modelled with
  `Option` (`none` = panic), and `Vec` itself as `List`.
-/

/-- A two-dimensional lattice point `Point(pub i32, pub i32)`;
field `y` is the row coordinate `.0`, `x` the column coordinate `.1`. -/
structure Point where
  y : Int
  x : Int
deriving DecidableEq, Repr

/-- A size of a rectangle `Size(pub i32, pub i32)`;
field `rows` is `.0`, `cols` is `.1`. -/
structure Size where
  rows : Int
  cols : Int
deriving DecidableEq, Repr

/-- A difference between two points `Move(pub i32, pub i32)`. -/
structure Move where
  y : Int
  x : Int
deriving DecidableEq, Repr

/-- A 2x2 rotation matrix `Rotation(i32, i32, i32, i32)`. -/
structure Rotation where
  yy : Int
  yx : Int
  xy : Int
  xx : Int
deriving DecidableEq, Repr

/-- `impl Add<Move> for Point`. -/
def Point.add (p : Point) (m : Move) : Point :=
  ⟨p.y + m.y, p.x + m.x⟩

instance : HAdd Point Move Point :=
  ⟨Point.add⟩

/-- `impl Sub<Point> for Point`. -/
def Point.sub (p q : Point) : Move :=
  ⟨p.y - q.y, p.x - q.x⟩

instance : HSub Point Point Move :=
  ⟨Point.sub⟩

/-- `impl Add<Move> for Move`. -/
def Move.add (a b : Move) : Move :=
  ⟨a.y + b.y, a.x + b.x⟩

instance : Add Move :=
  ⟨Move.add⟩

/-- `impl Sub<Move> for Move`. -/
def Move.sub (a b : Move) : Move :=
  ⟨a.y - b.y, a.x - b.x⟩

instance : Sub Move :=
  ⟨Move.sub⟩

/-- `impl Neg for Move`. -/
def Move.neg (a : Move) : Move :=
  ⟨-a.y, -a.x⟩

instance : Neg Move :=
  ⟨Move.neg⟩

/-- `impl Mul<i32> for Move`. -/
def Move.smul (a : Move) (k : Int) : Move :=
  ⟨a.y * k, a.x * k⟩

instance : HMul Move Int Move :=
  ⟨Move.smul⟩

/-- `pub const MOVE_UP: Move = Move(-1, 0)`. -/
def MOVE_UP : Move := ⟨-1, 0⟩

/-- `pub const MOVE_RIGHT: Move = Move(0, 1)`. -/
def MOVE_RIGHT : Move := ⟨0, 1⟩

/-- `pub const MOVE_DOWN: Move = Move(1, 0)`. -/
def MOVE_DOWN : Move := ⟨1, 0⟩

/-- `pub const MOVE_LEFT: Move = Move(0, -1)`. -/
def MOVE_LEFT : Move := ⟨0, -1⟩

/-- `pub const ROT_CCW0: Rotation = Rotation(1, 0, 0, 1)`. -/
def ROT_CCW0 : Rotation := ⟨1, 0, 0, 1⟩

/-- `pub const ROT_CCW90: Rotation = Rotation(0, -1, 1, 0)`. -/
def ROT_CCW90 : Rotation := ⟨0, -1, 1, 0⟩

/-- `pub const ROT_CCW180: Rotation = Rotation(-1, 0, 0, -1)`. -/
def ROT_CCW180 : Rotation := ⟨-1, 0, 0, -1⟩

/-- `pub const ROT_CCW270: Rotation = Rotation(0, 1, -1, 0)`. -/
def ROT_CCW270 : Rotation := ⟨0, 1, -1, 0⟩

/-- `pub const ROT_H_FLIP: Rotation = Rotation(1, 0, 0, -1)`. -/
def ROT_H_FLIP : Rotation := ⟨1, 0, 0, -1⟩

/-- `pub const ROT_V_FLIP: Rotation = Rotation(-1, 0, 0, 1)`. -/
def ROT_V_FLIP : Rotation := ⟨-1, 0, 0, 1⟩

/-- `impl Mul<Rotation> for Rotation`: the 2x2 integer matrix product. -/
def Rotation.mul (a b : Rotation) : Rotation :=
  ⟨a.yy * b.yy + a.yx * b.xy,
   a.yy * b.yx + a.yx * b.xx,
   a.xy * b.yy + a.xx * b.xy,
   a.xy * b.yx + a.xx * b.xx⟩

instance : Mul Rotation :=
  ⟨Rotation.mul⟩

/-- `impl Mul<Move> for Rotation`: the linear action on a move vector. -/
def Rotation.mulMove (a : Rotation) (m : Move) : Move :=
  ⟨a.yy * m.y + a.yx * m.x, a.xy * m.y + a.xx * m.x⟩

instance : HMul Rotation Move Move :=
  ⟨Rotation.mulMove⟩

/-- `pub struct CellId(usize)`: an ID identifying a cell in the rectangle. -/
structure CellId where
  id : Nat
deriving DecidableEq, Repr

/-- `pub const CELL_ID_OUTSIDE: CellId = CellId(0)`. -/
def CELL_ID_OUTSIDE : CellId := ⟨0⟩

/-- `CellId::new`. -/
def CellId.new (id : Nat) : CellId := ⟨id⟩

/-- `CellId::is_outside`: `self == CELL_ID_OUTSIDE`. -/
def CellId.is_outside (c : CellId) : Bool :=
  decide (c = CELL_ID_OUTSIDE)

/-- `const OUTSIDE_POINT: Point = Point(-1, -1)`. -/
def OUTSIDE_POINT : Point := ⟨-1, -1⟩

/-- The Rust cast `i as usize` of an `i32` on a 64-bit platform:
two's complement reinterpretation, exact for every `i32` value. -/
def usizeOfInt (i : Int) : Nat :=
  if i < 0 then (i + 2 ^ 64).toNat else i.toNat

/-!
The `Geom` trait has the single primitive `size`; every other method is a
default derived from it.  We model it by functions taking the `Size`
directly; `Table`'s `Geom` impl supplies its stored `size` field.
-/

/-- `Geom::row`: `self.size().0`. -/
def Geom.row (s : Size) : Int := s.rows

/-- `Geom::column`: `self.size().1`. -/
def Geom.column (s : Size) : Int := s.cols

/-- `Geom::cell_len`: `(self.row() * self.column() + 1) as usize`. -/
def Geom.cell_len (s : Size) : Nat :=
  usizeOfInt (Geom.row s * Geom.column s + 1)

/-- `Geom::contains`: `0 <= p.0 && p.0 < size.0 && 0 <= p.1 && p.1 < size.1`. -/
def Geom.contains (s : Size) (p : Point) : Bool :=
  decide (0 ≤ p.y) && decide (p.y < s.rows) && decide (0 ≤ p.x) && decide (p.x < s.cols)

/-- `Geom::point_to_cellid`. -/
def Geom.point_to_cellid (s : Size) (p : Point) : CellId :=
  if Geom.contains s p then
    CellId.new (usizeOfInt (p.y * Geom.column s + p.x + 1))
  else
    CELL_ID_OUTSIDE

/-- `Geom::cellid_to_point`.  The cast `(idx as i32)` is modelled as the
`Nat → Int` coercion (exact below 2^31, i.e. within the overflow-free
scope); `/` and `%` on `i32` are truncated division and remainder. -/
def Geom.cellid_to_point (s : Size) (c : CellId) : Point :=
  if c.is_outside then
    OUTSIDE_POINT
  else
    let idx : Nat := c.id - 1
    ⟨Int.tdiv (idx : Int) (Geom.column s), Int.tmod (idx : Int) (Geom.column s)⟩

/-- Iterator state `pub struct Points`. -/
structure Points where
  point : Option Point
  size : Size
deriving DecidableEq, Repr

/-- `impl Iterator for Points`, method `next`, as a step function returning
the yielded item and the successor state. -/
def Points.next (s : Points) : Option (Point × Points) :=
  match s.point with
  | none => none
  | some cur =>
    let n1 : Point := ⟨cur.y, cur.x + 1⟩
    if n1.x ≥ s.size.cols then
      let n2 : Point := ⟨n1.y + 1, 0⟩
      if n2.y ≥ s.size.rows then
        some (cur, ⟨none, s.size⟩)
      else
        some (cur, ⟨some n2, s.size⟩)
    else
      some (cur, ⟨some n1, s.size⟩)

/-- `Geom::points`. -/
def Geom.points (s : Size) : Points :=
  if Geom.row s > 0 ∧ Geom.column s > 0 then
    ⟨some ⟨0, 0⟩, s⟩
  else
    ⟨none, s⟩

/-- Rust `Range<i32>` (`start..end`), as used by the row/column iterators. -/
structure IntRange where
  start : Int
  stop : Int
deriving DecidableEq, Repr

/-- `Iterator::next` for `Range<i32>`. -/
def IntRange.next (r : IntRange) : Option (Int × IntRange) :=
  if r.start < r.stop then some (r.start, ⟨r.start + 1, r.stop⟩) else none

/-- Iterator state `pub struct PointsInRow`. -/
structure PointsInRow where
  row : Int
  columns : IntRange
deriving DecidableEq, Repr

/-- `impl Iterator for PointsInRow`, method `next`. -/
def PointsInRow.next (s : PointsInRow) : Option (Point × PointsInRow) :=
  match s.columns.next with
  | some (c, rest) => some (⟨s.row, c⟩, ⟨s.row, rest⟩)
  | none => none

/-- Iterator state `pub struct PointsInColumn`. -/
structure PointsInColumn where
  rows : IntRange
  column : Int
deriving DecidableEq, Repr

/-- `impl Iterator for PointsInColumn`, method `next`. -/
def PointsInColumn.next (s : PointsInColumn) : Option (Point × PointsInColumn) :=
  match s.rows.next with
  | some (r, rest) => some (⟨r, s.column⟩, ⟨rest, s.column⟩)
  | none => none

/-- `Geom::points_in_row`: `PointsInRow { row, columns: 0..self.column() }`. -/
def Geom.points_in_row (s : Size) (row : Int) : PointsInRow :=
  ⟨row, ⟨0, Geom.column s⟩⟩

/-- `Geom::points_in_column`: `PointsInColumn { rows: 0..self.row(), column }`. -/
def Geom.points_in_column (s : Size) (column : Int) : PointsInColumn :=
  ⟨⟨0, Geom.row s⟩, column⟩

/-- Runs an iterator step function for at most `fuel` steps, collecting the
yielded items in order. -/
def runIter {σ α : Type} (next : σ → Option (α × σ)) : Nat → σ → List α
  | 0, _ => []
  | Nat.succ n, st =>
    match next st with
    | none => []
    | some (a, st1) => a :: runIter next n st1

/-- The full sequence produced by `Geom::points` (`rows * cols` items at
most, which the iterator never exceeds). -/
def Geom.pointsList (s : Size) : List Point :=
  runIter Points.next (s.rows.toNat * s.cols.toNat) (Geom.points s)

/-- The full sequence produced by `Geom::points_in_row`. -/
def Geom.pointsInRowList (s : Size) (row : Int) : List Point :=
  runIter PointsInRow.next s.cols.toNat (Geom.points_in_row s row)

/-- The full sequence produced by `Geom::points_in_column`. -/
def Geom.pointsInColumnList (s : Size) (column : Int) : List Point :=
  runIter PointsInColumn.next s.rows.toNat (Geom.points_in_column s column)

/-- `pub struct Table<T>`; `Vec<T>` is modelled as `List T`. -/
structure Table (T : Type) where
  size : Size
  data : List T
deriving DecidableEq, Repr

/-- `Table::new`: `assert_eq!((size.0 * size.1) as usize, data.len());
data.insert(0, outside)`.  The assertion failure (panic) is `none`. -/
def Table.new {T : Type} (size : Size) (outside : T) (data : List T) : Option (Table T) :=
  if usizeOfInt (size.rows * size.cols) = data.length then
    some ⟨size, outside :: data⟩
  else
    none

/-- `impl Index<Point> for Table`: `&self.data[self.point_to_cellid(p).id()]`.
An out-of-range vector index (panic) is `none`. -/
def Table.index {T : Type} (t : Table T) (p : Point) : Option T :=
  t.data[(Geom.point_to_cellid t.size p).id]?

/-- `impl IndexMut<Point> for Table`, as a functional update of the slot
`self.point_to_cellid(p).id()` (in range for every constructed table, see
the safety theorem below; `List.set` is the identity out of range). -/
def Table.index_mut {T : Type} (t : Table T) (p : Point) (v : T) : Table T :=
  ⟨t.size, t.data.set (Geom.point_to_cellid t.size p).id v⟩

/-- The row-major enumeration of a `rows × cols` rectangle: the point at
position `k` is `(k / cols, k % cols)`. -/
def rowMajorPoints (rows cols : Nat) : List Point :=
  (List.range (rows * cols)).map fun k => ⟨((k / cols : Nat) : Int), ((k % cols : Nat) : Int)⟩

/-! ### Helper lemmas -/

/-- Unfolding of the boolean containment test. -/
lemma Geom.contains_eq_true {s : Size} {p : Point} :
    Geom.contains s p = true ↔ 0 ≤ p.y ∧ p.y < s.rows ∧ 0 ≤ p.x ∧ p.x < s.cols := by
  simp [Geom.contains, and_assoc]

/-- The cell value of a contained point is at least 1. -/
lemma one_le_cell_val {s : Size} {p : Point} (h : Geom.contains s p = true) :
    1 ≤ p.y * Geom.column s + p.x + 1 := by
  obtain ⟨hy0, _, hx0, hxc⟩ := Geom.contains_eq_true.mp h
  have hcol : 0 ≤ s.cols := le_trans hx0 (le_of_lt hxc)
  have hm := mul_nonneg hy0 hcol
  simp only [Geom.column]
  linarith

/-- The cell value of a contained point is at most `rows * cols`. -/
lemma cell_val_le {s : Size} {p : Point} (h : Geom.contains s p = true) :
    p.y * Geom.column s + p.x + 1 ≤ s.rows * s.cols := by
  obtain ⟨hy0, hyr, hx0, hxc⟩ := Geom.contains_eq_true.mp h
  have hcol : 0 ≤ s.cols := le_trans hx0 (le_of_lt hxc)
  simp only [Geom.column]
  calc p.y * s.cols + p.x + 1 ≤ p.y * s.cols + s.cols := by linarith
    _ = (p.y + 1) * s.cols := by ring
    _ ≤ s.rows * s.cols := mul_le_mul_of_nonneg_right (by linarith) hcol

/-- `point_to_cellid` at a contained point, with the cast computed away. -/
lemma point_to_cellid_of_contains {s : Size} {p : Point} (h : Geom.contains s p = true) :
    Geom.point_to_cellid s p = CellId.new (p.y * s.cols + p.x + 1).toNat := by
  have h1 := one_le_cell_val h
  simp only [Geom.column] at h1
  simp only [Geom.point_to_cellid, Geom.column, h, if_true]
  rw [usizeOfInt, if_neg (by linarith)]

/-- `point_to_cellid` at a non-contained point. -/
lemma point_to_cellid_of_not_contains {s : Size} {p : Point} (h : Geom.contains s p = false) :
    Geom.point_to_cellid s p = CELL_ID_OUTSIDE := by
  simp [Geom.point_to_cellid, h]

/-! ### C2: the outside sentinel -/

/-- C2: `point_to_cellid(p).is_outside()` holds exactly when `contains(p)` is
false; `cellid_to_point(CELL_ID_OUTSIDE)` is the fixed representative
`Point(-1, -1)`, which has both coordinates negative and is contained in no
rectangle. -/
theorem sentinel_distinctness :
    (∀ (s : Size) (p : Point),
      (Geom.point_to_cellid s p).is_outside = !Geom.contains s p) ∧
    (∀ s : Size, Geom.cellid_to_point s CELL_ID_OUTSIDE = OUTSIDE_POINT) ∧
    (∀ s : Size, Geom.contains s OUTSIDE_POINT = false) ∧
    OUTSIDE_POINT.y < 0 ∧ OUTSIDE_POINT.x < 0 := by
  refine ⟨?_, ?_, ?_, by decide, by decide⟩
  · intro s p
    cases hsp : Geom.contains s p with
    | true =>
      rw [point_to_cellid_of_contains hsp]
      have h1 := one_le_cell_val hsp
      simp only [Geom.column] at h1
      simp only [CellId.is_outside, CellId.new, CELL_ID_OUTSIDE, Bool.not_true,
        decide_eq_false_iff_not, CellId.mk.injEq]
      generalize hv : p.y * s.cols + p.x + 1 = v at h1
      omega
    | false =>
      rw [point_to_cellid_of_not_contains hsp]
      decide
  · intro s
    simp [Geom.cellid_to_point, CellId.is_outside, CELL_ID_OUTSIDE]
  · intro s
    simp [Geom.contains, OUTSIDE_POINT]

/-! ### C7 and C8: the rotation group and its action -/

/-- Unfolds the `*` notation for rotation composition. -/
lemma Rotation.mul_def (a b : Rotation) : a * b = Rotation.mul a b := rfl

/-- The four counterclockwise quarter-turn constants, indexed cyclically. -/
def rotCCW : Fin 4 → Rotation
  | 0 => ROT_CCW0
  | 1 => ROT_CCW90
  | 2 => ROT_CCW180
  | 3 => ROT_CCW270

/-- The four cardinal unit moves in the cyclic order `[up, left, down, right]`
used by the rotation-action law. -/
def cardinalDirs : Fin 4 → Move
  | 0 => MOVE_UP
  | 1 => MOVE_LEFT
  | 2 => MOVE_DOWN
  | 3 => MOVE_RIGHT

/-- The four diagonal moves in the cyclic order
`[up+right, left+up, down+left, right+down]`. -/
def diagonalDirs : Fin 4 → Move
  | 0 => MOVE_UP + MOVE_RIGHT
  | 1 => MOVE_LEFT + MOVE_UP
  | 2 => MOVE_DOWN + MOVE_LEFT
  | 3 => MOVE_RIGHT + MOVE_DOWN

/-- C7: rotation composition is the 2x2 integer matrix product: it is
associative, `ROT_CCW0` is a two-sided identity, and the four quarter-turn
constants compose cyclically (`rot[i] * rot[j] = rot[(i + j) % 4]`, the `Fin 4`
addition being addition mod 4). -/
theorem rotation_group_law :
    (∀ a b c : Rotation, a * b * c = a * (b * c)) ∧
    (∀ a : Rotation, ROT_CCW0 * a = a ∧ a * ROT_CCW0 = a) ∧
    (∀ i j : Fin 4, rotCCW i * rotCCW j = rotCCW (i + j)) := by
  refine ⟨?_, ?_, by decide⟩
  · intro a b c
    cases a; cases b; cases c
    simp only [Rotation.mul_def, Rotation.mul, Rotation.mk.injEq]
    refine ⟨by ring, by ring, by ring, by ring⟩
  · intro a
    cases a
    constructor <;>
      simp only [Rotation.mul_def, Rotation.mul, ROT_CCW0, Rotation.mk.injEq] <;>
      refine ⟨by ring, by ring, by ring, by ring⟩

/-- C8: each quarter turn cyclically permutes the cardinal unit moves in the
order `[up, left, down, right]` (`rot[i] * dirs[j] = dirs[(i + j) % 4]`), and
likewise the four diagonal moves `[up+right, left+up, down+left, right+down]`. -/
theorem rotation_action_cyclic :
    (∀ i j : Fin 4, rotCCW i * cardinalDirs j = cardinalDirs (i + j)) ∧
    (∀ i j : Fin 4, rotCCW i * diagonalDirs j = diagonalDirs (i + j)) := by
  constructor <;> decide

/-! ### C9: row and column sweeps -/

/-- Running the `Range<i32>` iterator for `(b - a).toNat` steps yields the
integers of `a..b` in order. -/
lemma runIter_intRange :
    ∀ (n : Nat) (a b : Int), n = (b - a).toNat →
      runIter IntRange.next n ⟨a, b⟩ = (List.range n).map fun j : Nat => a + (j : Int) := by
  intro n
  induction n with
  | zero => intro a b _; simp [runIter]
  | succ n ih =>
    intro a b h
    have hab : a < b := by omega
    have hnext : IntRange.next ⟨a, b⟩ = some (a, ⟨a + 1, b⟩) := by
      simp [IntRange.next, hab]
    simp only [runIter, hnext]
    rw [ih (a + 1) b (by omega), List.range_succ_eq_map]
    simp only [List.map_cons, List.map_map, Nat.cast_zero, add_zero]
    congr 1
    apply List.map_congr_left
    intro j _
    simp only [Function.comp_apply, Nat.succ_eq_add_one]
    push_cast
    ring_nf

/-- The row iterator is the range iterator with the fixed row attached. -/
lemma runIter_pointsInRow (row : Int) :
    ∀ (n : Nat) (r : IntRange),
      runIter PointsInRow.next n ⟨row, r⟩ =
        (runIter IntRange.next n r).map fun c => ⟨row, c⟩ := by
  intro n
  induction n with
  | zero => intro r; simp [runIter]
  | succ n ih =>
    intro r
    cases hr : IntRange.next r with
    | none => simp [runIter, PointsInRow.next, hr]
    | some ar =>
      obtain ⟨a, rest⟩ := ar
      simp [runIter, PointsInRow.next, hr, ih]

/-- The column iterator is the range iterator with the fixed column attached. -/
lemma runIter_pointsInColumn (column : Int) :
    ∀ (n : Nat) (r : IntRange),
      runIter PointsInColumn.next n ⟨r, column⟩ =
        (runIter IntRange.next n r).map fun y => ⟨y, column⟩ := by
  intro n
  induction n with
  | zero => intro r; simp [runIter]
  | succ n ih =>
    intro r
    cases hr : IntRange.next r with
    | none => simp [runIter, PointsInColumn.next, hr]
    | some ar =>
      obtain ⟨a, rest⟩ := ar
      simp [runIter, PointsInColumn.next, hr, ih]

/-- C9: for every size and every integer `row` (in bounds or not),
`points_in_row(row)` yields exactly the points `(row, c)` for
`c = 0, 1, …, columns - 1` in increasing order (empty whenever
`columns ≤ 0`, since then `columns.toNat = 0`); symmetrically,
`points_in_column(column)` yields the points `(r, column)` for
`r = 0, 1, …, rows - 1`.  No bounds check is performed on the given index. -/
theorem points_in_row_column_sweep :
    (∀ (s : Size) (row : Int),
      Geom.pointsInRowList s row =
        (List.range s.cols.toNat).map fun c : Nat => ⟨row, (c : Int)⟩) ∧
    (∀ (s : Size) (column : Int),
      Geom.pointsInColumnList s column =
        (List.range s.rows.toNat).map fun r : Nat => ⟨(r : Int), column⟩) := by
  constructor
  · intro s row
    unfold Geom.pointsInRowList Geom.points_in_row
    rw [runIter_pointsInRow, runIter_intRange s.cols.toNat 0 (Geom.column s)
      (by simp [Geom.column]), List.map_map]
    apply List.map_congr_left
    intro j _
    simp [Function.comp]
  · intro s column
    unfold Geom.pointsInColumnList Geom.points_in_column
    rw [runIter_pointsInColumn, runIter_intRange s.rows.toNat 0 (Geom.row s)
      (by simp [Geom.row]), List.map_map]
    apply List.map_congr_left
    intro j _
    simp [Function.comp]

/-! ### C6: full row-major iteration -/

/-- Division and modulus step when the column index wraps to a new row. -/
lemma div_mod_succ_wrap {k cols : Nat} (hc : 0 < cols) (h : k % cols + 1 = cols) :
    (k + 1) / cols = k / cols + 1 ∧ (k + 1) % cols = 0 := by
  have hd := Nat.div_add_mod k cols
  have e1 : k + 1 = cols * (k / cols + 1) := by
    rw [Nat.mul_succ]
    omega
  constructor
  · rw [e1, Nat.mul_div_cancel_left _ hc]
  · rw [e1, Nat.mul_mod_right]

/-- Division and modulus step within a row. -/
lemma div_mod_succ_step {k cols : Nat} (h : k % cols + 1 < cols) :
    (k + 1) / cols = k / cols ∧ (k + 1) % cols = k % cols + 1 := by
  have hc : 0 < cols := by omega
  have hd := Nat.div_add_mod k cols
  have e1 : k + 1 = cols * (k / cols) + (k % cols + 1) := by omega
  constructor
  · rw [e1, Nat.mul_add_div hc, Nat.div_eq_of_lt h, Nat.add_zero]
  · rw [e1, Nat.mul_add_mod, Nat.mod_eq_of_lt h]

/-- At the bottom-right cell the successor index is the cell count. -/
lemma succ_index_last {k cols rows : Nat}
    (h1 : k % cols + 1 = cols) (h2 : k / cols + 1 = rows) : k + 1 = rows * cols := by
  have hd := Nat.div_add_mod k cols
  have e1 : k + 1 = cols * (k / cols + 1) := by
    rw [Nat.mul_succ]
    omega
  rw [e1, h2, Nat.mul_comm]

/-- The `Points` iterator on the exhausted state yields nothing. -/
lemma runIter_points_none (sz : Size) (n : Nat) :
    runIter Points.next n ⟨none, sz⟩ = [] := by
  cases n <;> simp [runIter, Points.next]

/-- Length of the row-major enumeration. -/
lemma rowMajorPoints_length (rows cols : Nat) :
    (rowMajorPoints rows cols).length = rows * cols := by
  simp [rowMajorPoints]

/-- Peeling one point off the row-major enumeration. -/
lemma rowMajorPoints_drop (rows cols k : Nat) (hk : k < rows * cols) :
    (rowMajorPoints rows cols).drop k =
      Point.mk ((k / cols : Nat) : Int) ((k % cols : Nat) : Int) ::
        (rowMajorPoints rows cols).drop (k + 1) := by
  have hlen : k < (rowMajorPoints rows cols).length := by
    rw [rowMajorPoints_length]; exact hk
  rw [List.drop_eq_getElem_cons hlen]
  congr 1
  simp [rowMajorPoints]

/-- Invariant run of the `Points` iterator: started at the `k`-th cell of a
positive rectangle with exactly the remaining fuel, it yields the remaining
row-major suffix. -/
lemma runIter_points_eq_drop (rows cols : Nat) (hc : 0 < cols) :
    ∀ (n k : Nat), k < rows * cols → n = rows * cols - k →
      runIter Points.next n
        ⟨some ⟨((k / cols : Nat) : Int), ((k % cols : Nat) : Int)⟩,
          ⟨(rows : Int), (cols : Int)⟩⟩ =
      (rowMajorPoints rows cols).drop k := by
  intro n
  induction n with
  | zero => intro k hk hn; omega
  | succ n ih =>
    intro k hk hn
    have hq : k / cols < rows := by
      rw [Nat.div_lt_iff_lt_mul hc]
      exact hk
    have hmod : k % cols < cols := Nat.mod_lt _ hc
    have hd := Nat.div_add_mod k cols
    rw [rowMajorPoints_drop rows cols k hk]
    by_cases hend : k % cols + 1 = cols
    · by_cases hrow : k / cols + 1 = rows
      · -- bottom-right cell: the iterator stops after yielding it
        have hk1 : k + 1 = rows * cols := succ_index_last hend hrow
        have hnext : Points.next
            ⟨some ⟨((k / cols : Nat) : Int), ((k % cols : Nat) : Int)⟩,
              ⟨(rows : Int), (cols : Int)⟩⟩ =
            some (⟨((k / cols : Nat) : Int), ((k % cols : Nat) : Int)⟩,
              ⟨none, ⟨(rows : Int), (cols : Int)⟩⟩) := by
          simp only [Points.next]
          split_ifs with h1 h2
          · rfl
          · exfalso; omega
          · exfalso; omega
        simp only [runIter, hnext, runIter_points_none]
        have hdrop : (rowMajorPoints rows cols).drop (k + 1) = [] :=
          List.drop_eq_nil_of_le (by rw [rowMajorPoints_length]; omega)
        rw [hdrop]
      · -- wrap to the start of the next row
        have hstep := div_mod_succ_wrap hc hend
        have e1 : k + 1 = cols * (k / cols + 1) := by
          rw [Nat.mul_succ]
          omega
        have hk1 : k + 1 < rows * cols := by
          have hlt : cols * (k / cols + 1) < cols * rows :=
            mul_lt_mul_of_pos_left (by omega) hc
          rw [e1, Nat.mul_comm rows cols]
          exact hlt
        have hnext : Points.next
            ⟨some ⟨((k / cols : Nat) : Int), ((k % cols : Nat) : Int)⟩,
              ⟨(rows : Int), (cols : Int)⟩⟩ =
            some (⟨((k / cols : Nat) : Int), ((k % cols : Nat) : Int)⟩,
              ⟨some ⟨(((k + 1) / cols : Nat) : Int), (((k + 1) % cols : Nat) : Int)⟩,
                ⟨(rows : Int), (cols : Int)⟩⟩) := by
          simp only [Points.next]
          split_ifs with h1 h2
          · exfalso; omega
          · rw [hstep.1, hstep.2]
            push_cast
            rfl
          · exfalso; omega
        simp only [runIter, hnext]
        rw [ih (k + 1) hk1 (by omega)]
    · -- advance within the row
      have hend2 : k % cols + 1 < cols := by omega
      have hstep := div_mod_succ_step hend2
      have hk1 : k + 1 < rows * cols := by
        have hle : cols * (k / cols + 1) ≤ cols * rows :=
          Nat.mul_le_mul_left _ (by omega)
        have hms : cols * (k / cols + 1) = cols * (k / cols) + cols := Nat.mul_succ _ _
        have hrc : cols * rows = rows * cols := Nat.mul_comm _ _
        omega
      have hnext : Points.next
          ⟨some ⟨((k / cols : Nat) : Int), ((k % cols : Nat) : Int)⟩,
            ⟨(rows : Int), (cols : Int)⟩⟩ =
          some (⟨((k / cols : Nat) : Int), ((k % cols : Nat) : Int)⟩,
            ⟨some ⟨(((k + 1) / cols : Nat) : Int), (((k + 1) % cols : Nat) : Int)⟩,
              ⟨(rows : Int), (cols : Int)⟩⟩) := by
        simp only [Points.next]
        split_ifs with h1 h2
        · exfalso; omega
        · exfalso; omega
        · rw [hstep.1, hstep.2]
          push_cast
          rfl
      simp only [runIter, hnext]
      rw [ih (k + 1) hk1 (by omega)]

/-- `points()` produces exactly the row-major enumeration of the rectangle
(and the empty list when either dimension is not positive, since then
`toNat` of that dimension is `0`). -/
lemma pointsList_eq_rowMajor (s : Size) :
    Geom.pointsList s = rowMajorPoints s.rows.toNat s.cols.toNat := by
  obtain ⟨r, c⟩ := s
  by_cases hpos : 0 < r ∧ 0 < c
  · obtain ⟨hr, hc⟩ := hpos
    obtain ⟨R, rfl⟩ : ∃ R : Nat, r = (R : Int) := ⟨r.toNat, (Int.toNat_of_nonneg hr.le).symm⟩
    obtain ⟨C, rfl⟩ : ∃ C : Nat, c = (C : Int) := ⟨c.toNat, (Int.toNat_of_nonneg hc.le).symm⟩
    have hRn : 0 < R := by omega
    have hCn : 0 < C := by omega
    unfold Geom.pointsList Geom.points
    rw [if_pos (by constructor <;> simpa [Geom.row, Geom.column])]
    have h0 := runIter_points_eq_drop R C hCn (R * C) 0 (Nat.mul_pos hRn hCn) (by omega)
    simp only [Nat.zero_div, Nat.zero_mod, Nat.cast_zero, List.drop_zero] at h0
    simpa [Int.toNat_natCast] using h0
  · unfold Geom.pointsList Geom.points
    rw [if_neg (by simpa [Geom.row, Geom.column] using hpos)]
    rw [runIter_points_none]
    have hz : r.toNat * c.toNat = 0 := by
      rcases not_and_or.mp hpos with h | h
      · have : r.toNat = 0 := by omega
        rw [this, Nat.zero_mul]
      · have : c.toNat = 0 := by omega
        rw [this, Nat.mul_zero]
    simp [rowMajorPoints, hz]

/-- Membership in the row-major enumeration is exactly the containment
predicate (with bounds expressed through `Nat` casts). -/
lemma mem_rowMajorPoints (R C : Nat) (p : Point) :
    p ∈ rowMajorPoints R C ↔
      0 ≤ p.y ∧ p.y < (R : Int) ∧ 0 ≤ p.x ∧ p.x < (C : Int) := by
  obtain ⟨py, px⟩ := p
  simp only [rowMajorPoints, List.mem_map, List.mem_range]
  constructor
  · rintro ⟨k, hk, hpt⟩
    injection hpt with hy hx
    have hC : 0 < C := by
      rcases Nat.eq_zero_or_pos C with h | h
      · subst h; rw [Nat.mul_zero] at hk; omega
      · exact h
    have hdivR : k / C < R := by
      rw [Nat.div_lt_iff_lt_mul hC]; exact hk
    have hmodC : k % C < C := Nat.mod_lt _ hC
    generalize hgq : k / C = q at hy hdivR
    generalize hgm : k % C = m at hx hmodC
    omega
  · rintro ⟨hy0, hyR, hx0, hxC⟩
    have hC : 0 < C := by omega
    have hb : px.toNat < C := by omega
    have ha : py.toNat < R := by omega
    refine ⟨py.toNat * C + px.toNat, ?_, ?_⟩
    · calc py.toNat * C + px.toNat < py.toNat * C + C := by omega
        _ = (py.toNat + 1) * C := (Nat.succ_mul _ _).symm
        _ ≤ R * C := Nat.mul_le_mul_right _ (by omega)
    · have hdiv : (py.toNat * C + px.toNat) / C = py.toNat := by
        rw [Nat.mul_comm py.toNat C, Nat.mul_add_div hC, Nat.div_eq_of_lt hb, Nat.add_zero]
      have hmod : (py.toNat * C + px.toNat) % C = px.toNat := by
        rw [Nat.mul_comm py.toNat C, Nat.mul_add_mod, Nat.mod_eq_of_lt hb]
      rw [hdiv, hmod]
      simp only [Point.mk.injEq]
      omega

/-- The row-major enumeration lists pairwise distinct points. -/
lemma rowMajorPoints_nodup (R C : Nat) : (rowMajorPoints R C).Nodup := by
  rcases Nat.eq_zero_or_pos C with h | hC
  · subst h
    simp [rowMajorPoints]
  · unfold rowMajorPoints
    apply List.Nodup.map_on ?_ (List.nodup_range _)
    intro x hx y hy hxy
    simp only [List.mem_range] at hx hy
    injection hxy with h1 h2
    have hdiv : x / C = y / C := by omega
    have hmod : x % C = y % C := by omega
    have hxd := Nat.div_add_mod x C
    have hyd := Nat.div_add_mod y C
    rw [hdiv, hmod] at hxd
    omega

/-- C6: `points()` yields exactly the contained points, each exactly once, in
row-major order; the sequence is empty whenever either dimension is not
positive (in particular for `Size(0, n)` and `Size(n, 0)`, where `contains`
is also always false); and for `Size(4, 3)` it is the literal 12-point
row-major sequence. -/
theorem points_row_major :
    (∀ s : Size, Geom.pointsList s = rowMajorPoints s.rows.toNat s.cols.toNat) ∧
    (∀ (s : Size) (p : Point), p ∈ Geom.pointsList s ↔ Geom.contains s p = true) ∧
    (∀ s : Size, (Geom.pointsList s).Nodup) ∧
    (∀ (n : Int) (p : Point),
      Geom.contains ⟨0, n⟩ p = false ∧ Geom.contains ⟨n, 0⟩ p = false) ∧
    Geom.pointsList ⟨4, 3⟩ =
      [⟨0, 0⟩, ⟨0, 1⟩, ⟨0, 2⟩, ⟨1, 0⟩, ⟨1, 1⟩, ⟨1, 2⟩,
       ⟨2, 0⟩, ⟨2, 1⟩, ⟨2, 2⟩, ⟨3, 0⟩, ⟨3, 1⟩, ⟨3, 2⟩] := by
  refine ⟨pointsList_eq_rowMajor, ?_, ?_, ?_, by decide⟩
  · intro s p
    rw [pointsList_eq_rowMajor, mem_rowMajorPoints, Geom.contains_eq_true]
    omega
  · intro s
    rw [pointsList_eq_rowMajor]
    exact rowMajorPoints_nodup _ _
  · intro n p
    constructor <;>
      · rw [Bool.eq_false_iff, Ne, Geom.contains_eq_true]
        dsimp only
        omega

/-! ### C3, C4, C5, C10: the `Table` container -/

/-- A successful `Table::new` pins down the table and the length check. -/
lemma Table.new_some {T : Type} {s : Size} {o : T} {d : List T} {t : Table T}
    (h : Table.new s o d = some t) :
    t = ⟨s, o :: d⟩ ∧ usizeOfInt (s.rows * s.cols) = d.length := by
  unfold Table.new at h
  split_ifs at h with hc
  exact ⟨(Option.some.inj h).symm, hc⟩

/-- For a contained point, the cell value and its `toNat` behave simply. -/
lemma cell_val_toNat {s : Size} {p : Point} (h : Geom.contains s p = true) :
    (p.y * s.cols + p.x + 1).toNat = (p.y * s.cols + p.x).toNat + 1 ∧
    1 ≤ (p.y * s.cols + p.x + 1).toNat ∧
    (((p.y * s.cols + p.x + 1).toNat : Nat) : Int) = p.y * s.cols + p.x + 1 := by
  have h1 := one_le_cell_val h
  simp only [Geom.column] at h1
  generalize hv : p.y * s.cols + p.x = v at h1 ⊢
  omega

/-- C10 (implicit safety): for every table produced by a successful
construction, the storage has length `(rows * cols as usize) + 1` and the
index computed for any point whatsoever is strictly below it (`0` for
non-contained points, in `[1, rows*cols]` for contained ones), so table
indexing never reaches the out-of-range panic branch. -/
theorem table_index_in_bounds {T : Type} (s : Size) (o : T) (d : List T) (t : Table T)
    (h : Table.new s o d = some t) (p : Point) :
    (Geom.point_to_cellid t.size p).id < t.data.length ∧
    t.data.length = usizeOfInt (s.rows * s.cols) + 1 ∧
    (Geom.contains t.size p = false → (Geom.point_to_cellid t.size p).id = 0) ∧
    (Geom.contains t.size p = true →
      1 ≤ (Geom.point_to_cellid t.size p).id ∧
      ((Geom.point_to_cellid t.size p).id : Int) ≤ t.size.rows * t.size.cols) ∧
    (t.index p).isSome = true := by
  obtain ⟨rfl, hlen⟩ := Table.new_some h
  dsimp only at *
  have hlen2 : (o :: d).length = d.length + 1 := rfl
  cases hc : Geom.contains s p with
  | false =>
    rw [point_to_cellid_of_not_contains hc]
    refine ⟨by simp [CELL_ID_OUTSIDE], by omega, fun _ => rfl, by simp [hc], ?_⟩
    simp [Table.index, point_to_cellid_of_not_contains hc, CELL_ID_OUTSIDE]
  | true =>
    obtain ⟨hy0, hyr, hx0, hxc⟩ := Geom.contains_eq_true.mp hc
    have h2 := cell_val_le hc
    simp only [Geom.column] at h2
    obtain ⟨_, hv1, hvcast⟩ := cell_val_toNat hc
    have hprod : 0 < s.rows * s.cols :=
      mul_pos (by omega) (by omega)
    have hup : usizeOfInt (s.rows * s.cols) = (s.rows * s.cols).toNat := by
      rw [usizeOfInt, if_neg (by omega)]
    have hid : (p.y * s.cols + p.x + 1).toNat ≤ (s.rows * s.cols).toNat := by
      omega
    rw [point_to_cellid_of_contains hc]
    have hlt : (CellId.new (p.y * s.cols + p.x + 1).toNat).id < (o :: d).length := by
      simp only [CellId.new]
      omega
    refine ⟨hlt, by omega, by simp [hc], ?_, ?_⟩
    · intro _
      simp only [CellId.new]
      constructor
      · exact hv1
      · rw [hvcast]
        exact h2
    · rw [Table.index]
      dsimp only
      rw [point_to_cellid_of_contains hc]
      rw [List.getElem?_eq_getElem hlt]
      rfl

/-- C3: reading a constructed table at a contained point `(r, c)` returns
element `r * cols + c` of the supplied row-major data, and reading at any
non-contained point returns the outside value. -/
theorem table_read_spec {T : Type} (s : Size) (o : T) (d : List T) (t : Table T)
    (h : Table.new s o d = some t) (p : Point) :
    (Geom.contains s p = true →
      t.index p = d[(p.y * s.cols + p.x).toNat]?) ∧
    (Geom.contains s p = false → t.index p = some o) := by
  obtain ⟨rfl, hlen⟩ := Table.new_some h
  constructor
  · intro hc
    obtain ⟨hsucc, hv1, _⟩ := cell_val_toNat hc
    rw [Table.index]
    dsimp only
    rw [point_to_cellid_of_contains hc]
    simp only [CellId.new]
    rw [hsucc, List.getElem?_cons_succ]
  · intro hc
    rw [Table.index]
    dsimp only
    rw [point_to_cellid_of_not_contains hc]
    simp [CELL_ID_OUTSIDE]

/-- C4: all out-of-bounds points alias the single shared outside slot: a
write through any non-contained point is read back through every
non-contained point. -/
theorem table_outside_alias {T : Type} (s : Size) (o : T) (d : List T) (t : Table T)
    (h : Table.new s o d = some t) (p q : Point) (v : T)
    (hp : Geom.contains s p = false) (hq : Geom.contains s q = false) :
    (t.index_mut p v).index q = some v := by
  obtain ⟨rfl, hlen⟩ := Table.new_some h
  rw [Table.index_mut, Table.index]
  dsimp only
  rw [point_to_cellid_of_not_contains hp, point_to_cellid_of_not_contains hq]
  simp [CELL_ID_OUTSIDE]

/-- C5 (amended): for every size whose `rows * cols` product is nonnegative
(so the `i32 → usize` cast of the product does not wrap), explicit-data
construction fails exactly when the data length differs from `rows * cols`,
and on success the storage is exactly the outside value followed by the
data — nothing is truncated or padded. -/
theorem table_new_length_iff {T : Type} (s : Size) (o : T) (d : List T)
    (hnn : 0 ≤ s.rows * s.cols) :
    (Table.new s o d = none ↔ (d.length : Int) ≠ s.rows * s.cols) ∧
    (∀ t : Table T, Table.new s o d = some t →
      t.data = o :: d ∧ t.data.length = d.length + 1) := by
  constructor
  · unfold Table.new
    have hup : usizeOfInt (s.rows * s.cols) = (s.rows * s.cols).toNat := by
      rw [usizeOfInt, if_neg (by omega)]
    rw [hup]
    split_ifs with hc
    · simp only [reduceCtorEq, false_iff]
      omega
    · simp only [ne_eq, true_iff]
      omega
  · intro t ht
    obtain ⟨rfl, _⟩ := Table.new_some ht
    exact ⟨rfl, rfl⟩

/-- Witness for C10 at `Size(2,2)`, data `[1,2,3,4]`, point `(1,1)`. -/
theorem table_index_in_bounds_witness :
    Table.new ⟨2, 2⟩ (0 : Nat) [1, 2, 3, 4] = some ⟨⟨2, 2⟩, [0, 1, 2, 3, 4]⟩ ∧
    ((Table.mk ⟨2, 2⟩ [0, 1, 2, 3, 4]).index ⟨1, 1⟩).isSome = true :=
  ⟨by decide,
    (table_index_in_bounds ⟨2, 2⟩ 0 [1, 2, 3, 4] ⟨⟨2, 2⟩, [0, 1, 2, 3, 4]⟩
      (by decide) ⟨1, 1⟩).2.2.2.2⟩

/-- Witness for C3: the literal `Size(2,2)` scenario with data
`[10,20,30,40]` and outside value `99`. -/
theorem table_read_spec_witness :
    Geom.contains ⟨2, 2⟩ (⟨0, 1⟩ : Point) = true ∧
    Geom.contains ⟨2, 2⟩ (⟨-1, -1⟩ : Point) = false ∧
    (Table.mk ⟨2, 2⟩ [99, 10, 20, 30, 40] : Table Nat).index ⟨0, 1⟩ =
      [10, 20, 30, 40][(((0 : Int) * 2 + 1)).toNat]? ∧
    (Table.mk ⟨2, 2⟩ [99, 10, 20, 30, 40] : Table Nat).index ⟨-1, -1⟩ = some 99 ∧
    (Table.mk ⟨2, 2⟩ [99, 10, 20, 30, 40] : Table Nat).index ⟨0, 0⟩ = some 10 ∧
    (Table.mk ⟨2, 2⟩ [99, 10, 20, 30, 40] : Table Nat).index ⟨0, 1⟩ = some 20 ∧
    (Table.mk ⟨2, 2⟩ [99, 10, 20, 30, 40] : Table Nat).index ⟨1, 0⟩ = some 30 ∧
    (Table.mk ⟨2, 2⟩ [99, 10, 20, 30, 40] : Table Nat).index ⟨1, 1⟩ = some 40 :=
  ⟨by decide, by decide,
    (table_read_spec ⟨2, 2⟩ 99 [10, 20, 30, 40] ⟨⟨2, 2⟩, [99, 10, 20, 30, 40]⟩
      (by decide) ⟨0, 1⟩).1 (by decide),
    (table_read_spec ⟨2, 2⟩ 99 [10, 20, 30, 40] ⟨⟨2, 2⟩, [99, 10, 20, 30, 40]⟩
      (by decide) ⟨-1, -1⟩).2 (by decide),
    by decide, by decide, by decide, by decide⟩

/-- Witness for C4: writing `7` at the out-of-bounds point `(5,5)` is read
back at the out-of-bounds point `(-7,3)`. -/
theorem table_outside_alias_witness :
    Geom.contains ⟨2, 2⟩ (⟨5, 5⟩ : Point) = false ∧
    Geom.contains ⟨2, 2⟩ (⟨-7, 3⟩ : Point) = false ∧
    ((Table.mk ⟨2, 2⟩ [99, 10, 20, 30, 40] : Table Nat).index_mut ⟨5, 5⟩ 7).index ⟨-7, 3⟩ =
      some 7 :=
  ⟨by decide, by decide,
    table_outside_alias ⟨2, 2⟩ 99 [10, 20, 30, 40] ⟨⟨2, 2⟩, [99, 10, 20, 30, 40]⟩
      (by decide) ⟨5, 5⟩ ⟨-7, 3⟩ 7 (by decide) (by decide)⟩

/-- Witness for C5 (amended): `Size(2,2)` with a data sequence of length 3
fails to construct. -/
theorem table_new_length_iff_witness :
    (0 : Int) ≤ (Size.mk 2 2).rows * (Size.mk 2 2).cols ∧
    Table.new ⟨2, 2⟩ (0 : Nat) [1, 2, 3] = none :=
  ⟨by decide,
    ((table_new_length_iff ⟨2, 2⟩ (0 : Nat) [1, 2, 3] (by decide)).1).mpr (by decide)⟩

/-- Any data sequence of length `2^64 - 5` is accepted by `Table::new` at
`Size(-1, 5)`, because the negative product `-5` wraps to `2^64 - 5` in the
`as usize` cast. -/
lemma table_new_accepts_wrapped {T : Type} (o : T) (d : List T)
    (hlen : d.length = 2 ^ 64 - 5) :
    Table.new (Size.mk (-1) 5) o d = some ⟨⟨-1, 5⟩, o :: d⟩ := by
  unfold Table.new
  rw [if_pos]
  rw [hlen, usizeOfInt, if_pos (by decide)]
  decide

/-- Counterexample to C5 as stated: on a 64-bit platform the negative
product `(-1) * 5` wraps in the `as usize` cast, so a data sequence of the
(astronomical, but for a zero-sized element type realizable in Rust) length
`2^64 - 5` — which differs from `rows * cols = -5` — is accepted by the
construction instead of failing. -/
theorem table_new_length_cex :
    (((List.replicate (2 ^ 64 - 5) ()).length : Int) ≠
      (Size.mk (-1) 5).rows * (Size.mk (-1) 5).cols) ∧
    Table.new (Size.mk (-1) 5) () (List.replicate (2 ^ 64 - 5) ()) ≠ none := by
  have hlen : (List.replicate (2 ^ 64 - 5) (() : Unit)).length = 2 ^ 64 - 5 :=
    List.length_replicate _ _
  constructor
  · rw [hlen]
    dsimp only
    omega
  · rw [table_new_accepts_wrapped () (List.replicate (2 ^ 64 - 5) ()) hlen]
    exact fun h => Option.noConfusion h

/-! ### C1: the Point ↔ CellId bijection -/

/-- C1 (amended): for every size and contained point, `point_to_cellid` is
the row-major map `p ↦ rows*cols + col + 1` with value in `[1, rows*cols]`
and `cellid_to_point` inverts it; and — provided both dimensions are
nonnegative — for every cell ID with numeric value in `[1, rows*cols]`,
`cellid_to_point` lands on a contained point and `point_to_cellid` inverts
it.  Together these exhibit a bijection between contained points and the ID
range.  (The nonnegativity proviso is forced by the counterexample
`Size(-1,-1)`, where the ID range `[1, rows*cols] = [1,1]` is nonempty but
no point is contained.) -/
theorem point_cellid_bijection :
    (∀ (s : Size) (p : Point), Geom.contains s p = true →
      Geom.point_to_cellid s p = CellId.new (p.y * s.cols + p.x + 1).toNat ∧
      1 ≤ (Geom.point_to_cellid s p).id ∧
      ((Geom.point_to_cellid s p).id : Int) ≤ s.rows * s.cols ∧
      Geom.cellid_to_point s (Geom.point_to_cellid s p) = p) ∧
    (∀ s : Size, 0 ≤ s.rows → 0 ≤ s.cols →
      ∀ c : CellId, 1 ≤ c.id → (c.id : Int) ≤ s.rows * s.cols →
        Geom.contains s (Geom.cellid_to_point s c) = true ∧
        Geom.point_to_cellid s (Geom.cellid_to_point s c) = c) := by
  constructor
  · intro s p hc
    obtain ⟨hy0, hyr, hx0, hxc⟩ := Geom.contains_eq_true.mp hc
    have hcol : 0 < s.cols := lt_of_le_of_lt hx0 hxc
    have h2 := cell_val_le hc
    simp only [Geom.column] at h2
    obtain ⟨hsucc, hv1, hvcast⟩ := cell_val_toNat hc
    have hform := point_to_cellid_of_contains hc
    refine ⟨hform, ?_, ?_, ?_⟩
    · rw [hform]
      exact hv1
    · rw [hform]
      simp only [CellId.new]
      rw [hvcast]
      exact h2
    · rw [hform]
      have hnout : ¬((CellId.new (p.y * s.cols + p.x + 1).toNat).is_outside = true) := by
        simp only [CellId.is_outside, CellId.new, CELL_ID_OUTSIDE,
          decide_eq_true_eq, CellId.mk.injEq]
        omega
      rw [Geom.cellid_to_point, if_neg hnout]
      simp only [CellId.new, Geom.column]
      have hidx : (((p.y * s.cols + p.x + 1).toNat - 1 : Nat) : Int) =
          p.y * s.cols + p.x := by
        generalize hw : p.y * s.cols + p.x = w at hvcast hv1 ⊢
        omega
      rw [hidx]
      have hyx : p.y * s.cols + p.x = p.x + s.cols * p.y := by ring
      have hdiv : (p.y * s.cols + p.x).tdiv s.cols = p.y := by
        rw [Int.tdiv_eq_ediv (by positivity) hcol.le, hyx,
          Int.add_mul_ediv_left p.x p.y (by omega),
          Int.ediv_eq_zero_of_lt hx0 hxc, zero_add]
      have hmod : (p.y * s.cols + p.x).tmod s.cols = p.x := by
        rw [Int.tmod_eq_emod (by positivity) hcol.le, hyx,
          Int.add_mul_emod_self_left, Int.emod_eq_of_lt hx0 hxc]
      rw [hdiv, hmod]
  · intro s hr0 hc0 c h1 h2
    obtain ⟨cid⟩ := c
    simp only at h1 h2
    have hrp : 0 < s.rows := by
      rcases lt_or_eq_of_le hr0 with h | h
      · exact h
      · rw [← h, zero_mul] at h2; omega
    have hcp : 0 < s.cols := by
      rcases lt_or_eq_of_le hc0 with h | h
      · exact h
      · rw [← h, mul_zero] at h2; omega
    have hnout : ¬((CellId.mk cid).is_outside = true) := by
      simp only [CellId.is_outside, CELL_ID_OUTSIDE, decide_eq_true_eq, CellId.mk.injEq]
      omega
    rw [Geom.cellid_to_point, if_neg hnout]
    simp only [Geom.column]
    have hidx : ((cid - 1 : Nat) : Int) = (cid : Int) - 1 := by omega
    rw [hidx]
    have hi0 : 0 ≤ (cid : Int) - 1 := by omega
    have hilt : (cid : Int) - 1 < s.rows * s.cols := by omega
    have hdiv : ((cid : Int) - 1).tdiv s.cols = ((cid : Int) - 1) / s.cols :=
      Int.tdiv_eq_ediv hi0 hcp.le
    have hmod : ((cid : Int) - 1).tmod s.cols = ((cid : Int) - 1) % s.cols :=
      Int.tmod_eq_emod hi0 hcp.le
    rw [hdiv, hmod]
    have hq0 : 0 ≤ ((cid : Int) - 1) / s.cols := Int.ediv_nonneg hi0 hcp.le
    have hqlt : ((cid : Int) - 1) / s.cols < s.rows := by
      rw [Int.ediv_lt_iff_lt_mul hcp]
      exact hilt
    have hm0 : 0 ≤ ((cid : Int) - 1) % s.cols := Int.emod_nonneg _ (by omega)
    have hmlt : ((cid : Int) - 1) % s.cols < s.cols := Int.emod_lt_of_pos _ hcp
    have hcont : Geom.contains s ⟨((cid : Int) - 1) / s.cols, ((cid : Int) - 1) % s.cols⟩ =
        true :=
      Geom.contains_eq_true.mpr ⟨hq0, hqlt, hm0, hmlt⟩
    refine ⟨hcont, ?_⟩
    rw [point_to_cellid_of_contains hcont]
    have hde := Int.ediv_add_emod ((cid : Int) - 1) s.cols
    have hsum : (((cid : Int) - 1) / s.cols) * s.cols + ((cid : Int) - 1) % s.cols + 1 =
        (cid : Int) := by
      have hcm : (((cid : Int) - 1) / s.cols) * s.cols =
          s.cols * (((cid : Int) - 1) / s.cols) := mul_comm _ _
      rw [hcm]
      omega
    simp only
    rw [hsum]
    simp only [CellId.new, CellId.mk.injEq]
    omega

/-- Witness for C1 at `Size(2,3)`: the contained point `(1,2)` and the cell
ID `4`. -/
theorem point_cellid_bijection_witness :
    Geom.contains ⟨2, 3⟩ (⟨1, 2⟩ : Point) = true ∧
    Geom.cellid_to_point ⟨2, 3⟩ (Geom.point_to_cellid ⟨2, 3⟩ ⟨1, 2⟩) = ⟨1, 2⟩ ∧
    (0 : Int) ≤ (Size.mk 2 3).rows ∧ (0 : Int) ≤ (Size.mk 2 3).cols ∧
    1 ≤ (CellId.new 4).id ∧ ((CellId.new 4).id : Int) ≤ (Size.mk 2 3).rows * (Size.mk 2 3).cols ∧
    Geom.point_to_cellid ⟨2, 3⟩ (Geom.cellid_to_point ⟨2, 3⟩ (CellId.new 4)) = CellId.new 4 :=
  ⟨by decide,
    (point_cellid_bijection.1 ⟨2, 3⟩ ⟨1, 2⟩ (by decide)).2.2.2,
    by decide, by decide, by decide, by decide,
    (point_cellid_bijection.2 ⟨2, 3⟩ (by decide) (by decide) (CellId.new 4)
      (by decide) (by decide)).2⟩

/-- Counterexample to C1 as stated: at `Size(-1,-1)` the product
`rows * cols = 1`, so the ID `1` lies in `[1, rows*cols]`, yet
`cellid_to_point` maps it to `(0, 0)`, which is not contained, so
`point_to_cellid` sends it to the outside sentinel `0`, not back to `1`. -/
theorem point_cellid_bijection_cex :
    (1 : Int) ≤ (Size.mk (-1) (-1)).rows * (Size.mk (-1) (-1)).cols ∧
    1 ≤ (CellId.new 1).id ∧
    ((CellId.new 1).id : Int) ≤ (Size.mk (-1) (-1)).rows * (Size.mk (-1) (-1)).cols ∧
    Geom.point_to_cellid ⟨-1, -1⟩ (Geom.cellid_to_point ⟨-1, -1⟩ (CellId.new 1)) ≠
      CellId.new 1 := by
  decide
